import Mathlib

/-!
Shallow embedding of `binary_mask.py` (hemangjethava/Binary_mask_python).

The script loads images from a directory, builds for each a binary mask
(255 where all three colour channels strictly exceed 200, else 0), writes
the mask to `<output_dir>/<name>_mask.png`, and sums the per-image counts
of 255-pixels over a thread pool.

Modelling choices:
* An `Image` is a height, a width and a channel-indexed pixel function
  (`px i j c` = channel `c` of the pixel at row `i`, column `j`), matching
  `image[i, j, c]` on the decoded numpy array.
* The mask is a `List (List Nat)`; the double `for` loop of
  `process_image` (lines 52-56) is embedded as nested folds over
  `List.range`, mutating the zero grid with `List.set`.
* Python strings are `List Char`; `str.split`, `str.lower`,
  `str.endswith` and `os.path.join` (POSIX rules, two components) are
  embedded below.
* External collaborators (`cv2.imread`, `os.path.exists`, `os.makedirs`,
  `cv2.imwrite`) are parameters bundled in `Env`; each fallible one
  returns `Except String _` so that a raised exception is an `error`
  value, and `cv2.imread` may additionally return `none` (the
  `image is None` check at line 44).
-/

namespace BinaryMask

/-- a Python string, modelled as its list of characters. -/
abbrev PyStr := List Char

/-- a decoded image: `px i j c` is channel `c` (0, 1 or 2) of the pixel at
row `i`, column `j`, as in `image[i, j, c]` on the numpy array returned by
`cv2.imread`. -/
structure Image where
  height : Nat
  width : Nat
  px : Nat → Nat → Nat → Nat

/-- the per-pixel test of line 55:
`image[i, j, 0] > 200 and image[i, j, 1] > 200 and image[i, j, 2] > 200`. -/
def pixelOn (img : Image) (i j : Nat) : Bool :=
  decide (200 < img.px i j 0) && decide (200 < img.px i j 1) &&
    decide (200 < img.px i j 2)

/-- one iteration of the inner loop body (lines 55-56): when the channel
test passes, write 255 into row `i`, column `j` of the mask grid. -/
def gridStep (img : Image) (m : List (List Nat)) (i j : Nat) :
    List (List Nat) :=
  if pixelOn img i j then m.set i ((m.getD i []).set j 255) else m

/-- the zero-initialised mask of line 49:
`np.zeros(image.shape[:2], dtype=np.uint8)`. -/
def maskInit (img : Image) : List (List Nat) :=
  List.replicate img.height (List.replicate img.width 0)

/-- the mask produced by the scalar double loop of lines 52-56 of
`process_image`. -/
def buildMask (img : Image) : List (List Nat) :=
  (List.range img.height).foldl
    (fun m i => (List.range img.width).foldl (fun m j => gridStep img m i j) m)
    (maskInit img)

/-- the vectorised whole-grid formulation the spec describes: elementwise
comparison of each channel against 200 combined with AND across channels.
Stated from the spec's words, to be compared with `buildMask`. -/
def maskVectorized (img : Image) : List (List Nat) :=
  (List.range img.height).map fun i =>
    (List.range img.width).map fun j => if pixelOn img i j then 255 else 0

/-- the count of line 69, `np.sum(mask == 255)`: the number of entries of
the grid equal to 255. -/
def count255 (m : List (List Nat)) : Nat :=
  (m.map fun r => r.countP fun v => v == 255).sum

/-- the number of pixel positions of `img` at which every channel value is
strictly greater than 200 (the quantity the spec says `on_count` equals). -/
def onCountSpec (img : Image) : Nat :=
  ((List.range img.height).map fun i =>
    (List.range img.width).countP fun j => pixelOn img i j).sum

/-- Python `str.split(sep)` for a one-character separator: splits at every
occurrence of `sep`, keeping empty pieces, so the result is never empty. -/
def pySplit (sep : Char) : PyStr → List PyStr
  | [] => [[]]
  | c :: cs =>
    if c = sep then [] :: pySplit sep cs
    else
      match pySplit sep cs with
      | [] => [[c]]
      | r :: rs => (c :: r) :: rs

/-- Python `lst[-1]` on the (never empty) result of a split. -/
def pyLast (l : List PyStr) : PyStr := l.getLastD []

/-- Python `lst[0]` on the (never empty) result of a split. -/
def pyHead (l : List PyStr) : PyStr := l.headD []

/-- Python `str.lower()` on ASCII text: lower-case each character. -/
def pyLower (s : PyStr) : PyStr := s.map Char.toLower

/-- Python `s.endswith(suf)`. -/
def pyEndsWith (s suf : PyStr) : Bool := suf.isSuffixOf s

/-- the model of `os.path.join(a, b)` under POSIX rules for two components: an absolute
second component discards the first; otherwise the pieces are glued with a
single `/` (none added after an empty or `/`-terminated first component). -/
def osPathJoin (a b : PyStr) : PyStr :=
  if b.head? = some '/' then b
  else if a = [] ∨ a.getLast? = some '/' then a ++ b
  else a ++ '/' :: b

/-- line 63 of `process_image`:
`os.path.join(output_dir, image_path.split('\\')[-1].split('.')[0] + "_mask.png")`. -/
def mask_filename (output_dir image_path : PyStr) : PyStr :=
  osPathJoin output_dir
    (pyHead (pySplit '.' (pyLast (pySplit '\\' image_path))) ++
      ("_mask.png").toList)

/-- the external collaborators of `process_image`: `cv2.imread` (which may
raise, or return `None`), `os.path.exists`, `os.makedirs` and
`cv2.imwrite` (each of which may raise). -/
structure Env where
  imread : PyStr → Except String (Option Image)
  path_exists : PyStr → Bool
  makedirs : PyStr → Except String Unit
  imwrite : PyStr → List (List Nat) → Except String Unit

/-- lines 59-60: `if not os.path.exists(output_dir): os.makedirs(output_dir)`. -/
def ensureDir (env : Env) (output_dir : PyStr) : Except String Unit :=
  if env.path_exists output_dir then Except.ok () else env.makedirs output_dir

/-- the function `process_image(image_path, output_dir)` (lines 27-78). The `try` block
wraps loading, masking, directory creation and writing; any `error` from a
collaborator lands in the `except` branch, which returns `(0, none)`, as
does a `None` image. On full success the pair is
`(np.sum(mask == 255), mask_filename)`. The function is total: no
exception reaches the caller. -/
def process_image (env : Env) (image_path output_dir : PyStr) :
    Nat × Option PyStr :=
  match env.imread image_path with
  | Except.error _ => (0, none)
  | Except.ok none => (0, none)
  | Except.ok (some image) =>
    let mask := buildMask image
    match ensureDir env output_dir with
    | Except.error _ => (0, none)
    | Except.ok _ =>
      match env.imwrite (mask_filename output_dir image_path) mask with
      | Except.error _ => (0, none)
      | Except.ok _ => (count255 mask, some (mask_filename output_dir image_path))

/-- the `as_completed` collection loop of lines 98-108: starting from
`total_mask_count = 0`, add each completed future's `mask_count`. The
argument list is the per-image results in completion order. -/
def collect_total (results : List (Nat × Option PyStr)) : Nat :=
  results.foldl (fun total r => total + r.1) 0

/-- the function `process_images_in_parallel(image_paths, output_dir)` (lines 80-112),
with the futures collected in submission order (any completion order is a
permutation of this list; see the order-independence theorem). -/
def process_images_in_parallel (env : Env) (image_paths : List PyStr)
    (output_dir : PyStr) : Nat :=
  collect_total (image_paths.map fun p => process_image env p output_dir)

/-- line 135's filter on a directory entry: `f.lower().endswith('g')`. -/
def selected (f : PyStr) : Bool := pyEndsWith (pyLower f) ['g']

/-- the set of directory entries kept by the list comprehension of
line 135 (before they are joined onto the input directory). -/
def selected_files (entries : List PyStr) : List PyStr :=
  entries.filter selected

/-- the inner `for j` loop restricted to one row of the mask. -/
def rowFold (img : Image) (i : Nat) (L : List Nat) (r : List Nat) : List Nat :=
  L.foldl (fun r j => if pixelOn img i j then r.set j 255 else r) r

/-- one full iteration of the outer `for i` loop. -/
def outerStep (img : Image) (m : List (List Nat)) (i : Nat) : List (List Nat) :=
  (List.range img.width).foldl (fun m j => gridStep img m i j) m

/-- the basename under the claim's reading of "strip the directory path":
the part of the path after the last `/`. -/
def specBasename (p : PyStr) : PyStr :=
  (p.reverse.takeWhile (fun c => c != '/')).reverse

/-- strip the original extension under the claim's reading: drop the last
`.` and what follows it (when the name has a dot). -/
def specStripExt (f : PyStr) : PyStr :=
  if '.' ∈ f then ((f.reverse.dropWhile (fun c => c != '.')).drop 1).reverse
  else f

/-- the output path claim C5 describes:
`<output_dir>/<original-stem>_mask.png`. -/
def claimedMaskPath (output_dir p : PyStr) : PyStr :=
  output_dir ++ '/' :: (specStripExt (specBasename p) ++ ("_mask.png").toList)

/-! ### Concrete fixtures used by witnesses and counterexamples -/

/-- the 2-by-2 end-to-end image of the spec: pixels (255,255,255),
(200,200,200), (201,201,201) and (0,0,0); its mask is [[255,0],[255,0]]
and its on-count 2. -/
def imgSpec2x2 : Image :=
  ⟨2, 2, fun i j _ =>
    if i = 0 ∧ j = 0 then 255
    else if i = 0 ∧ j = 1 then 200
    else if i = 1 ∧ j = 0 then 201
    else 0⟩

/-- a 1-by-1 image whose only pixel is (255, 255, 255). -/
def allWhite1 : Image := ⟨1, 1, fun _ _ _ => 255⟩

/-- a 1-by-1 image whose only pixel is (0, 0, 0). -/
def allDark1 : Image := ⟨1, 1, fun _ _ _ => 0⟩

/-- a 1-by-1 image whose only pixel has channels (255, 255, 200): two
channels above the threshold and one exactly at it. -/
def boundaryImg : Image := ⟨1, 1, fun _ _ c => if c = 2 then 200 else 255⟩

/-- collaborators that always succeed and decode `imgSpec2x2`. -/
def envOK : Env :=
  ⟨fun _ => Except.ok (some imgSpec2x2), fun _ => true,
    fun _ => Except.ok (), fun _ _ => Except.ok ()⟩

/-- collaborators that always succeed and decode `allWhite1`. -/
def envWhite : Env :=
  ⟨fun _ => Except.ok (some allWhite1), fun _ => true,
    fun _ => Except.ok (), fun _ _ => Except.ok ()⟩

/-- collaborators that always succeed and decode `allDark1`. -/
def envDark : Env :=
  ⟨fun _ => Except.ok (some allDark1), fun _ => true,
    fun _ => Except.ok (), fun _ _ => Except.ok ()⟩

/-- collaborators whose `cv2.imread` raises. -/
def envReadError : Env :=
  ⟨fun _ => Except.error "imread raised", fun _ => true,
    fun _ => Except.ok (), fun _ _ => Except.ok ()⟩

/-- collaborators whose `cv2.imread` returns `None`. -/
def envReadNone : Env :=
  ⟨fun _ => Except.ok none, fun _ => true,
    fun _ => Except.ok (), fun _ _ => Except.ok ()⟩

/-- collaborators that decode `allWhite1` but whose `os.makedirs` raises. -/
def envDirFail : Env :=
  ⟨fun _ => Except.ok (some allWhite1), fun _ => false,
    fun _ => Except.error "makedirs raised", fun _ _ => Except.ok ()⟩

/-- collaborators that decode `allWhite1` but whose `cv2.imwrite` raises. -/
def envWriteFail : Env :=
  ⟨fun _ => Except.ok (some allWhite1), fun _ => true,
    fun _ => Except.ok (), fun _ _ => Except.error "imwrite raised"⟩

/-- collaborators that decode `imgSpec2x2` for `a.png` and raise on any
other path. -/
def envMix : Env :=
  ⟨fun p => if p = ("a.png").toList then Except.ok (some imgSpec2x2)
    else Except.error "imread raised", fun _ => true,
    fun _ => Except.ok (), fun _ _ => Except.ok ()⟩

/-! ### Helper lemmas about the string embedding -/

theorem pySplit_ne_nil (sep : Char) (s : PyStr) : pySplit sep s ≠ [] := by
  induction s with
  | nil => simp [pySplit]
  | cons c cs ih =>
    unfold pySplit
    by_cases hc : c = sep
    · simp [hc]
    · rw [if_neg hc]
      cases h : pySplit sep cs with
      | nil => simp
      | cons r rs => simp

theorem pySplit_of_not_mem {sep : Char} {s : PyStr} (h : sep ∉ s) :
    pySplit sep s = [s] := by
  induction s with
  | nil => rfl
  | cons c cs ih =>
    have hc : c ≠ sep := fun hh => h (hh ▸ List.mem_cons_self c cs)
    have hcs : sep ∉ cs := fun hh => h (List.mem_cons_of_mem c hh)
    unfold pySplit
    rw [if_neg hc, ih hcs]

theorem two_le_length_pySplit {sep : Char} {s : PyStr} (h : sep ∈ s) :
    2 ≤ (pySplit sep s).length := by
  induction s with
  | nil => cases h
  | cons c cs ih =>
    unfold pySplit
    by_cases hc : c = sep
    · rw [if_pos hc]
      have hne := pySplit_ne_nil sep cs
      have h1 : 1 ≤ (pySplit sep cs).length := by
        cases hh : pySplit sep cs with
        | nil => exact absurd hh hne
        | cons r rs => simp
      simpa using h1
    · rw [if_neg hc]
      have hcs : sep ∈ cs := by
        rcases List.mem_cons.mp h with h1 | h2
        · exact absurd h1.symm hc
        · exact h2
      cases hh : pySplit sep cs with
      | nil => exact absurd hh (pySplit_ne_nil sep cs)
      | cons r rs =>
        have h2 := ih hcs
        rw [hh] at h2
        simpa using h2

theorem takeWhile_append_single_false {α : Type} {p : α → Bool} {a : α}
    (h : p a = false) (xs : List α) :
    ((xs ++ [a]).takeWhile p) = xs.takeWhile p := by
  rw [List.takeWhile_append]
  split
  · next hl =>
    rw [(List.takeWhile_sublist p).eq_of_length hl]
    simp [List.takeWhile_cons, h]
  · rfl

theorem takeWhile_append_of_ne_full {α : Type} {p : α → Bool} {xs : List α}
    (h : xs.takeWhile p ≠ xs) (ys : List α) :
    ((xs ++ ys).takeWhile p) = xs.takeWhile p := by
  rw [List.takeWhile_append]
  split
  · next hl => exact absurd ((List.takeWhile_sublist p).eq_of_length hl) h
  · rfl

theorem pyHead_pySplit (sep : Char) (s : PyStr) :
    pyHead (pySplit sep s) = s.takeWhile (fun c => c != sep) := by
  induction s with
  | nil => rfl
  | cons c cs ih =>
    unfold pySplit
    by_cases hc : c = sep
    · rw [if_pos hc]
      simp [pyHead, List.takeWhile_cons, hc]
    · rw [if_neg hc]
      cases hh : pySplit sep cs with
      | nil => exact absurd hh (pySplit_ne_nil sep cs)
      | cons r rs =>
        rw [hh] at ih
        simp [pyHead] at ih
        simp [pyHead, List.takeWhile_cons, hc, ih]

theorem pyLast_cons_of_ne_nil {x : PyStr} {t : List PyStr} (h : t ≠ []) :
    pyLast (x :: t) = pyLast t := by
  cases t with
  | nil => exact absurd rfl h
  | cons r rs => simp [pyLast, List.getLastD_eq_getLast?, List.getLast?_cons_cons]

theorem pyLast_pySplit (sep : Char) (s : PyStr) :
    pyLast (pySplit sep s) = (s.reverse.takeWhile (fun c => c != sep)).reverse := by
  induction s with
  | nil => rfl
  | cons c cs ih =>
    unfold pySplit
    by_cases hc : c = sep
    · rw [if_pos hc, pyLast_cons_of_ne_nil (pySplit_ne_nil sep cs), ih,
        List.reverse_cons, takeWhile_append_single_false (by simp [hc]) cs.reverse]
    · rw [if_neg hc]
      cases hh : pySplit sep cs with
      | nil => exact absurd hh (pySplit_ne_nil sep cs)
      | cons r rs =>
        cases rs with
        | nil =>
          have hnm : sep ∉ cs := by
            intro hmem
            have h2 := two_le_length_pySplit hmem
            rw [hh] at h2
            simp at h2
          have hr : r = cs := by
            have h1 := pySplit_of_not_mem hnm
            rw [hh] at h1
            exact (List.cons_eq_cons.mp h1).1
          subst hr
          have hall : ((r.reverse ++ [c]).takeWhile (fun x => x != sep)) =
              r.reverse ++ [c] := by
            rw [List.takeWhile_eq_self_iff]
            intro x hx
            rcases List.mem_append.mp hx with h1 | h2
            · have hxr : x ∈ r := List.mem_reverse.mp h1
              have : x ≠ sep := fun he => hnm (he ▸ hxr)
              simp [bne_iff_ne, this]
            · have : x = c := List.mem_singleton.mp h2
              subst this
              simp [bne_iff_ne, hc]
          show pyLast [c :: r] = ((c :: r).reverse.takeWhile fun x => x != sep).reverse
          rw [List.reverse_cons, hall, List.reverse_append]
          simp [pyLast]
        | cons r2 rs2 =>
          have hmem : sep ∈ cs := by
            by_contra hnm
            have h1 := pySplit_of_not_mem hnm
            rw [hh] at h1
            simp at h1
          rw [pyLast_cons_of_ne_nil (by simp : (r2 :: rs2 : List PyStr) ≠ [])]
          have hlhs : pyLast (r2 :: rs2) = pyLast (pySplit sep cs) := by
            rw [hh, pyLast_cons_of_ne_nil (by simp : (r2 :: rs2 : List PyStr) ≠ [])]
          rw [hlhs, ih, List.reverse_cons]
          have hne : cs.reverse.takeWhile (fun x => x != sep) ≠ cs.reverse := by
            intro heq
            have := (List.takeWhile_eq_self_iff.mp heq) sep (List.mem_reverse.mpr hmem)
            simp at this
          rw [takeWhile_append_of_ne_full hne]

/-! ### Helper lemmas about the mask loop -/

theorem set_getD_self {α : Type} (m : List α) (i : Nat) (d : α)
    (h : i < m.length) : m.set i (m.getD i d) = m := by
  apply List.ext_getElem?
  intro n
  by_cases hn : n = i
  · subst hn
    rw [List.getElem?_set_self h, List.getD_eq_getElem m d h,
      List.getElem?_eq_getElem h]
  · exact List.getElem?_set_ne (fun he => hn he.symm)

theorem rowFold_append (img : Image) (i : Nat) (L L2 : List Nat) (r : List Nat) :
    rowFold img i (L ++ L2) r = rowFold img i L2 (rowFold img i L r) := by
  simp [rowFold, List.foldl_append]

theorem rowFold_length (img : Image) (i : Nat) :
    ∀ (L : List Nat) (r : List Nat), (rowFold img i L r).length = r.length := by
  intro L
  induction L with
  | nil => intro r; rfl
  | cons j L ih =>
    intro r
    show (rowFold img i L (if pixelOn img i j then r.set j 255 else r)).length = _
    rw [ih]
    by_cases hp : pixelOn img i j <;> simp [hp]

theorem innerFold_length (img : Image) (i : Nat) :
    ∀ (L : List Nat) (m : List (List Nat)),
    (L.foldl (fun m j => gridStep img m i j) m).length = m.length := by
  intro L
  induction L with
  | nil => intro m; rfl
  | cons j L ih =>
    intro m
    rw [List.foldl_cons, ih]
    unfold gridStep
    by_cases hp : pixelOn img i j <;> simp [hp]

theorem innerFold_eq_set (img : Image) (i : Nat) :
    ∀ (L : List Nat) (m : List (List Nat)), i < m.length →
    L.foldl (fun m j => gridStep img m i j) m =
      m.set i (rowFold img i L (m.getD i [])) := by
  intro L
  induction L with
  | nil =>
    intro m hi
    exact (set_getD_self m i [] hi).symm
  | cons j L ih =>
    intro m hi
    rw [List.foldl_cons]
    by_cases hp : pixelOn img i j
    · have hg : gridStep img m i j = m.set i ((m.getD i []).set j 255) := by
        unfold gridStep
        rw [if_pos hp]
      rw [hg]
      have hlen : i < (m.set i ((m.getD i []).set j 255)).length := by
        rw [List.length_set]; exact hi
      rw [ih _ hlen]
      have hget : (m.set i ((m.getD i []).set j 255)).getD i [] =
          (m.getD i []).set j 255 := by
        rw [List.getD_eq_getElem?_getD, List.getElem?_set_self hi]
        rfl
      rw [hget, List.set_set]
      congr 1
      simp [rowFold, List.foldl_cons, hp]
    · have hg : gridStep img m i j = m := by
        unfold gridStep
        rw [if_neg hp]
      rw [hg, ih _ hi]
      congr 1
      simp [rowFold, List.foldl_cons, hp]

theorem rowFold_range_getD (img : Image) (i : Nat) :
    ∀ (n : Nat) (r : List Nat) (j : Nat),
    (rowFold img i (List.range n) r).getD j 0 =
      if j < n ∧ j < r.length ∧ pixelOn img i j then 255 else r.getD j 0 := by
  intro n
  induction n with
  | zero =>
    intro r j
    simp [rowFold]
  | succ n ih =>
    intro r j
    rw [List.range_succ, rowFold_append]
    have hstep : rowFold img i [n] (rowFold img i (List.range n) r) =
        if pixelOn img i n
          then (rowFold img i (List.range n) r).set n 255
          else rowFold img i (List.range n) r := by
      simp [rowFold]
    rw [hstep]
    have hFlen : (rowFold img i (List.range n) r).length = r.length :=
      rowFold_length img i _ r
    by_cases hp : pixelOn img i n
    · rw [if_pos hp]
      by_cases hj : j = n
      · subst hj
        by_cases hjr : j < r.length
        · rw [List.getD_eq_getElem?_getD,
            List.getElem?_set_self (by rw [hFlen]; exact hjr)]
          rw [if_pos ⟨Nat.lt_succ_self j, hjr, hp⟩]
          rfl
        · rw [List.set_eq_of_length_le (by omega), ih]
          rw [if_neg (by omega), if_neg (by omega)]
      · rw [List.getD_eq_getElem?_getD,
          List.getElem?_set_ne (fun he => hj he.symm),
          ← List.getD_eq_getElem?_getD, ih]
        have hiff : (j < n ∧ j < r.length ∧ pixelOn img i j = true) ↔
            (j < n + 1 ∧ j < r.length ∧ pixelOn img i j = true) := by
          constructor <;> rintro ⟨h1, h2, h3⟩ <;> exact ⟨by omega, h2, h3⟩
        rw [if_congr hiff rfl rfl]
    · rw [if_neg hp, ih]
      by_cases hj : j = n
      · subst hj
        rw [if_neg (by omega), if_neg (fun h => hp h.2.2)]
      · have hiff : (j < n ∧ j < r.length ∧ pixelOn img i j = true) ↔
            (j < n + 1 ∧ j < r.length ∧ pixelOn img i j = true) := by
          constructor <;> rintro ⟨h1, h2, h3⟩ <;> exact ⟨by omega, h2, h3⟩
        rw [if_congr hiff rfl rfl]

theorem buildMask_eq_foldl (img : Image) :
    buildMask img = (List.range img.height).foldl (outerStep img) (maskInit img) :=
  rfl

theorem outerFold_length (img : Image) :
    ∀ (L : List Nat) (m : List (List Nat)),
    (L.foldl (outerStep img) m).length = m.length := by
  intro L
  induction L with
  | nil => intro m; rfl
  | cons i L ih =>
    intro m
    rw [List.foldl_cons, ih, outerStep, innerFold_length]

theorem maskInit_getD (img : Image) {k : Nat} (hk : k < img.height) :
    (maskInit img).getD k [] = List.replicate img.width 0 := by
  rw [maskInit, List.getD_eq_getElem?_getD, List.getElem?_replicate, if_pos hk]
  rfl

theorem outerFold_range_getD (img : Image) :
    ∀ (n : Nat), n ≤ img.height → ∀ (k : Nat),
    ((List.range n).foldl (outerStep img) (maskInit img)).getD k [] =
      if k < n
        then rowFold img k (List.range img.width) (List.replicate img.width 0)
        else (maskInit img).getD k [] := by
  intro n
  induction n with
  | zero =>
    intro _ k
    simp
  | succ n ih =>
    intro hn k
    have hn2 : n ≤ img.height := by omega
    rw [List.range_succ, List.foldl_append, List.foldl_cons, List.foldl_nil]
    have hnlt : n < ((List.range n).foldl (outerStep img) (maskInit img)).length := by
      rw [outerFold_length, maskInit, List.length_replicate]
      omega
    rw [outerStep, innerFold_eq_set img n _ _ hnlt]
    have hGn : ((List.range n).foldl (outerStep img) (maskInit img)).getD n [] =
        List.replicate img.width 0 := by
      rw [ih hn2 n, if_neg (by omega), maskInit_getD img (by omega)]
    rw [hGn]
    by_cases hk : k = n
    · subst hk
      rw [List.getD_eq_getElem?_getD, List.getElem?_set_self hnlt,
        if_pos (Nat.lt_succ_self k)]
      rfl
    · rw [List.getD_eq_getElem?_getD,
        List.getElem?_set_ne (fun he => hk he.symm),
        ← List.getD_eq_getElem?_getD, ih hn2 k]
      by_cases hkn : k < n
      · rw [if_pos hkn, if_pos (by omega)]
      · rw [if_neg hkn, if_neg (by omega)]

theorem buildMask_getD (img : Image) (k : Nat) :
    (buildMask img).getD k [] =
      if k < img.height
        then rowFold img k (List.range img.width) (List.replicate img.width 0)
        else [] := by
  rw [buildMask_eq_foldl, outerFold_range_getD img img.height Nat.le.refl k]
  by_cases hk : k < img.height
  · rw [if_pos hk, if_pos hk]
  · rw [if_neg hk, if_neg hk, maskInit, List.getD_eq_getElem?_getD,
      List.getElem?_replicate, if_neg hk]
    rfl

theorem buildMask_length (img : Image) : (buildMask img).length = img.height := by
  rw [buildMask_eq_foldl, outerFold_length, maskInit, List.length_replicate]

theorem replicate_getD_zero (w j : Nat) :
    (List.replicate w (0 : Nat)).getD j 0 = 0 := by
  rw [List.getD_eq_getElem?_getD, List.getElem?_replicate]
  split <;> rfl

theorem buildMask_entry (img : Image) (i j : Nat) :
    ((buildMask img).getD i []).getD j 0 =
      if i < img.height ∧ j < img.width ∧ pixelOn img i j then 255 else 0 := by
  rw [buildMask_getD]
  by_cases hi : i < img.height
  · rw [if_pos hi, rowFold_range_getD]
    by_cases hj : j < img.width
    · by_cases hp : pixelOn img i j
      · rw [if_pos ⟨hj, by rw [List.length_replicate]; exact hj, hp⟩,
          if_pos ⟨hi, hj, hp⟩]
      · rw [if_neg (fun h => hp h.2.2), if_neg (fun h => hp h.2.2),
          replicate_getD_zero]
    · rw [if_neg (fun h => hj h.1), if_neg (fun h => hj h.2.1),
        replicate_getD_zero]
  · rw [if_neg hi, if_neg (fun h => hi h.1)]
    rfl

theorem rowFold_range_eq_map (img : Image) (i w : Nat) :
    rowFold img i (List.range w) (List.replicate w 0) =
      (List.range w).map (fun j => if pixelOn img i j then 255 else 0) := by
  apply List.ext_getElem?
  intro j
  by_cases hj : j < w
  · have h1 : j < (rowFold img i (List.range w) (List.replicate w 0)).length := by
      rw [rowFold_length, List.length_replicate]
      exact hj
    have h2 : j <
        ((List.range w).map fun j => if pixelOn img i j then 255 else 0).length := by
      rw [List.length_map, List.length_range]
      exact hj
    have hv : (rowFold img i (List.range w) (List.replicate w 0))[j] =
        if pixelOn img i j then 255 else 0 := by
      rw [← List.getD_eq_getElem _ 0 h1, rowFold_range_getD]
      by_cases hp : pixelOn img i j
      · rw [if_pos ⟨hj, by rw [List.length_replicate]; exact hj, hp⟩, if_pos hp]
      · rw [if_neg (fun h => hp h.2.2), if_neg hp, replicate_getD_zero]
    rw [List.getElem?_eq_getElem h1, List.getElem?_eq_getElem h2, hv]
    simp [List.getElem_map, List.getElem_range]
  · rw [List.getElem?_eq_none, List.getElem?_eq_none]
    · rw [List.length_map, List.length_range]
      omega
    · rw [rowFold_length, List.length_replicate]
      omega

theorem maskVectorized_length (img : Image) :
    (maskVectorized img).length = img.height := by
  rw [maskVectorized, List.length_map, List.length_range]

theorem buildMask_eq_maskVectorized_aux (img : Image) :
    buildMask img = maskVectorized img := by
  apply List.ext_getElem?
  intro n
  by_cases hn : n < img.height
  · have h1 : n < (buildMask img).length := by
      rw [buildMask_length]; exact hn
    have h2 : n < (maskVectorized img).length := by
      rw [maskVectorized_length]; exact hn
    rw [List.getElem?_eq_getElem h1, List.getElem?_eq_getElem h2]
    have hb : (buildMask img)[n] =
        rowFold img n (List.range img.width) (List.replicate img.width 0) := by
      rw [← List.getD_eq_getElem _ [] h1, buildMask_getD, if_pos hn]
    have hv : (maskVectorized img)[n] =
        (List.range img.width).map (fun j => if pixelOn img n j then 255 else 0) := by
      simp [maskVectorized]
    rw [hb, hv, rowFold_range_eq_map]
  · rw [List.getElem?_eq_none (by rw [buildMask_length]; omega),
      List.getElem?_eq_none (by rw [maskVectorized_length]; omega)]

theorem count255_maskVectorized (img : Image) :
    count255 (maskVectorized img) = onCountSpec img := by
  rw [count255, maskVectorized, onCountSpec, List.map_map]
  congr 1
  apply List.map_congr_left
  intro i _
  rw [Function.comp_apply, List.countP_map]
  apply List.countP_congr
  intro j _
  by_cases hp : pixelOn img i j <;> simp [hp]

theorem count255_buildMask (img : Image) :
    count255 (buildMask img) = onCountSpec img := by
  rw [buildMask_eq_maskVectorized_aux, count255_maskVectorized]

theorem onCountSpec_le (img : Image) :
    onCountSpec img ≤ img.height * img.width := by
  rw [onCountSpec]
  have h1 : ((List.range img.height).map fun i =>
      (List.range img.width).countP fun j => pixelOn img i j).sum ≤
      ((List.range img.height).map fun _ => img.width).sum := by
    apply List.sum_le_sum
    intro i _
    have := List.countP_le_length (fun j => pixelOn img i j)
      (l := List.range img.width)
    rw [List.length_range] at this
    exact this
  refine le_trans h1 ?_
  have h2 : ((List.range img.height).map fun _ => img.width).sum =
      img.height * img.width := by
    rw [List.map_const', List.length_range, List.sum_replicate, smul_eq_mul]
  rw [h2]

/-! ### Helper lemmas about characters and the filename filter -/

theorem char_toNat_ofNat_small {m : Nat} (h : m < 55296) :
    (Char.ofNat m).toNat = m := by
  rw [Char.ofNat, dif_pos (Or.inl h)]
  rfl

theorem char_eq_of_toNat_eq {a b : Char} (h : a.toNat = b.toNat) : a = b :=
  Char.ext (UInt32.toNat.inj h)

theorem toLower_eq_g_iff (c : Char) :
    Char.toLower c = 'g' ↔ c = 'g' ∨ c = 'G' := by
  constructor
  · intro h
    unfold Char.toLower at h
    by_cases hr : c.toNat ≥ 65 ∧ c.toNat ≤ 90
    · rw [if_pos hr] at h
      have hv : (Char.ofNat (c.toNat + 32)).toNat = c.toNat + 32 :=
        char_toNat_ofNat_small (by omega)
      have hg : Char.toNat 'g' = 103 := rfl
      have h103 : c.toNat + 32 = 103 := by rw [← hv, h, hg]
      have h71 : c.toNat = Char.toNat 'G' := by
        have hG : Char.toNat 'G' = 71 := rfl
        omega
      exact Or.inr (char_eq_of_toNat_eq h71)
    · rw [if_neg hr] at h
      exact Or.inl h
  · rintro (rfl | rfl) <;> decide

theorem singleton_isSuffixOf_iff (a : Char) (l : List Char) :
    (([a] : List Char).isSuffixOf l = true) ↔ l.getLast? = some a := by
  rw [List.isSuffixOf, ← List.head?_reverse]
  cases hl : l.reverse with
  | nil =>
    rw [show (([a] : List Char).reverse.isPrefixOf ([] : List Char)) = false from rfl]
    simp
  | cons c t =>
    have h1 : (([a] : List Char).reverse.isPrefixOf (c :: t)) = (a == c) := by
      show ((a == c) && (([] : List Char).isPrefixOf t)) = (a == c)
      rw [show (([] : List Char).isPrefixOf t) = true by cases t <;> rfl,
        Bool.and_true]
    rw [h1, beq_iff_eq]
    constructor
    · intro h
      rw [List.head?_cons, h]
    · intro h
      rw [List.head?_cons] at h
      exact (Option.some.inj h).symm

theorem selected_iff (f : PyStr) :
    selected f = true ↔ ∃ c, f.getLast? = some c ∧ (c = 'g' ∨ c = 'G') := by
  rw [selected, pyEndsWith, singleton_isSuffixOf_iff, pyLower,
    List.getLast?_map, Option.map_eq_some']
  exact exists_congr fun c => and_congr_right fun _ => toLower_eq_g_iff c

/-! ### Helper lemmas about the pixel predicate and counts -/

theorem pixelOn_iff (img : Image) (i j : Nat) :
    pixelOn img i j = true ↔
      200 < img.px i j 0 ∧ 200 < img.px i j 1 ∧ 200 < img.px i j 2 := by
  rw [pixelOn]
  simp [Bool.and_eq_true, decide_eq_true_eq, and_assoc]

theorem onCountSpec_eq_zero (img : Image)
    (h : ∀ i j c, i < img.height → j < img.width → c < 3 → img.px i j c ≤ 200) :
    onCountSpec img = 0 := by
  rw [onCountSpec]
  apply List.sum_eq_zero
  intro x hx
  rcases List.mem_map.mp hx with ⟨i, hi, rfl⟩
  apply List.countP_eq_zero.mpr
  intro j hj hp
  have hc := (pixelOn_iff img i j).mp hp
  have hb := h i j 0 (List.mem_range.mp hi) (List.mem_range.mp hj) (by omega)
  omega

theorem onCountSpec_eq_total (img : Image)
    (h : ∀ i j c, i < img.height → j < img.width → c < 3 → img.px i j c = 255) :
    onCountSpec img = img.width * img.height := by
  rw [onCountSpec]
  have hrow : ∀ i ∈ List.range img.height,
      ((List.range img.width).countP fun j => pixelOn img i j) = img.width := by
    intro i hi
    have hall : ∀ j ∈ List.range img.width, pixelOn img i j = true := by
      intro j hj
      apply (pixelOn_iff img i j).mpr
      have hi2 := List.mem_range.mp hi
      have hj2 := List.mem_range.mp hj
      refine ⟨?_, ?_, ?_⟩ <;>
        rw [h i j _ hi2 hj2 (by omega)] <;> omega
    have := List.countP_eq_length.mpr hall
    rw [List.length_range] at this
    exact this
  rw [List.map_congr_left hrow, List.map_const', List.length_range,
    List.sum_const_nat, Nat.mul_comm]

theorem count_le_size (img : Image) :
    count255 (buildMask img) ≤ img.height * img.width := by
  rw [count255_buildMask]
  exact onCountSpec_le img

/-! ### Helper lemmas about process_image and the batch -/

theorem collect_total_eq_sum (results : List (Nat × Option PyStr)) :
    collect_total results = (results.map fun r => r.1).sum := by
  have key : ∀ (l : List (Nat × Option PyStr)) (a : Nat),
      l.foldl (fun t r => t + r.1) a = a + (l.map fun r => r.1).sum := by
    intro l
    induction l with
    | nil => intro a; simp
    | cons x l ih =>
      intro a
      rw [List.foldl_cons, ih, List.map_cons, List.sum_cons]
      omega
  rw [collect_total, key, Nat.zero_add]

theorem process_image_read_error {env : Env} {p o : PyStr} {e : String}
    (h : env.imread p = Except.error e) : process_image env p o = (0, none) := by
  rw [process_image, h]

theorem process_image_read_none {env : Env} {p o : PyStr}
    (h : env.imread p = Except.ok none) : process_image env p o = (0, none) := by
  rw [process_image, h]

theorem process_image_dir_error {env : Env} {p o : PyStr} {img : Image} {e : String}
    (h1 : env.imread p = Except.ok (some img))
    (h2 : ensureDir env o = Except.error e) :
    process_image env p o = (0, none) := by
  rw [process_image, h1]
  simp only [h2]

theorem process_image_write_error {env : Env} {p o : PyStr} {img : Image} {e : String}
    (h1 : env.imread p = Except.ok (some img))
    (h2 : ensureDir env o = Except.ok ())
    (h3 : env.imwrite (mask_filename o p) (buildMask img) = Except.error e) :
    process_image env p o = (0, none) := by
  rw [process_image, h1]
  simp only [h2, h3]

theorem process_image_success_eq {env : Env} {p o : PyStr} {img : Image}
    (h1 : env.imread p = Except.ok (some img))
    (h2 : ensureDir env o = Except.ok ())
    (h3 : env.imwrite (mask_filename o p) (buildMask img) = Except.ok ()) :
    process_image env p o =
      (count255 (buildMask img), some (mask_filename o p)) := by
  rw [process_image, h1]
  simp only [h2, h3]

theorem process_image_fst_le (env : Env) (q o : PyStr) :
    (process_image env q o).1 ≤
      (match env.imread q with
        | Except.ok (some im) => im.height * im.width
        | _ => 0) := by
  cases hq : env.imread q with
  | error e =>
    rw [process_image_read_error hq]
  | ok oi =>
    cases oi with
    | none =>
      rw [process_image_read_none hq]
    | some im =>
      cases hd : ensureDir env o with
      | error e =>
        rw [process_image_dir_error hq hd]
        exact Nat.zero_le _
      | ok u =>
        cases u
        cases hw : env.imwrite (mask_filename o q) (buildMask im) with
        | error e =>
          rw [process_image_write_error hq hd hw]
          exact Nat.zero_le _
        | ok u2 =>
          cases u2
          rw [process_image_success_eq hq hd hw]
          exact count_le_size im

/-! ### The claims -/

/-- C1: for every image successfully loaded by `process_image`, the mask
built by its double loop has `mask[i][j] = 255` iff all three channel
values of the pixel at `(i, j)` strictly exceed 200, and `mask[i][j] = 0`
otherwise; in particular a pixel with one channel exactly 200 stays 0. -/
theorem c1_mask_entry_iff (img : Image) (i j : Nat)
    (hi : i < img.height) (hj : j < img.width) :
    (((buildMask img).getD i []).getD j 0 = 255 ↔
      200 < img.px i j 0 ∧ 200 < img.px i j 1 ∧ 200 < img.px i j 2) ∧
    (¬(200 < img.px i j 0 ∧ 200 < img.px i j 1 ∧ 200 < img.px i j 2) →
      ((buildMask img).getD i []).getD j 0 = 0) := by
  rw [buildMask_entry]
  by_cases hp : pixelOn img i j
  · rw [if_pos ⟨hi, hj, hp⟩]
    exact ⟨iff_of_true rfl ((pixelOn_iff img i j).mp hp),
      fun hn => absurd ((pixelOn_iff img i j).mp hp) hn⟩
  · rw [if_neg (fun h => hp h.2.2)]
    exact ⟨iff_of_false (by omega) (fun hc => hp ((pixelOn_iff img i j).mpr hc)),
      fun _ => rfl⟩

/-- C1 witness: at pixel (0,0) of the boundary image (channels
(255,255,200)) the mask is 0, and at pixel (0,0) of the spec's 2-by-2
image (channels (255,255,255)) it is 255. -/
theorem c1_witness :
    ((buildMask boundaryImg).getD 0 []).getD 0 0 = 0 ∧
    ((buildMask imgSpec2x2).getD 0 []).getD 0 0 = 255 :=
  ⟨(c1_mask_entry_iff boundaryImg 0 0 (by decide) (by decide)).2 (by decide),
   (c1_mask_entry_iff imgSpec2x2 0 0 (by decide) (by decide)).1.mpr (by decide)⟩

/-- C7: for every image, the mask built by `process_image` has exactly the
height and width of the source image, and every value in it is 0 or 255. -/
theorem c7_mask_shape (img : Image) :
    (buildMask img).length = img.height ∧
    (∀ row ∈ buildMask img, row.length = img.width) ∧
    (∀ row ∈ buildMask img, ∀ v ∈ row, v = 0 ∨ v = 255) := by
  refine ⟨buildMask_length img, ?_, ?_⟩
  · intro row hrow
    rw [buildMask_eq_maskVectorized_aux, maskVectorized] at hrow
    rcases List.mem_map.mp hrow with ⟨i, _, rfl⟩
    rw [List.length_map, List.length_range]
  · intro row hrow v hv
    rw [buildMask_eq_maskVectorized_aux, maskVectorized] at hrow
    rcases List.mem_map.mp hrow with ⟨i, _, rfl⟩
    rcases List.mem_map.mp hv with ⟨j, _, rfl⟩
    by_cases hp : pixelOn img i j
    · rw [if_pos hp]
      exact Or.inr rfl
    · rw [if_neg hp]
      exact Or.inl rfl

/-- C7 witness: the first row of the mask of the spec's 2-by-2 image has
the image's width, and its first value 255 is one of 0 and 255. -/
theorem c7_witness :
    ([255, 0] : List Nat).length = imgSpec2x2.width ∧
    ((255 : Nat) = 0 ∨ (255 : Nat) = 255) :=
  ⟨(c7_mask_shape imgSpec2x2).2.1 [255, 0] (by decide),
   (c7_mask_shape imgSpec2x2).2.2 [255, 0] (by decide) 255 (by decide)⟩

/-- C8: the scalar per-pixel double loop (`buildMask`) and the vectorised
whole-grid formulation (`maskVectorized`) produce the same mask grid and
the same count of 255-pixels, for every image. -/
theorem c8_loop_eq_vectorized (img : Image) :
    buildMask img = maskVectorized img ∧
    count255 (buildMask img) = count255 (maskVectorized img) :=
  ⟨buildMask_eq_maskVectorized_aux img,
   by rw [buildMask_eq_maskVectorized_aux]⟩

/-- C2 counterexample: the claim as stated fails. `envDirFail` loads the
all-255 1-by-1 image successfully, whose on-position count is 1, but
`os.makedirs` raises, so `process_image` lands in the `except` branch and
returns count 0, not 1. -/
theorem c2_counterexample :
    envDirFail.imread ("img.png").toList = Except.ok (some allWhite1) ∧
    onCountSpec allWhite1 = 1 ∧
    (process_image envDirFail ("img.png").toList ("outputs").toList).1 = 0 :=
  ⟨rfl, by decide, by decide⟩

/-- C2 amended: for every image successfully loaded, provided the
directory-creation and write steps also succeed, the returned count equals
the number of pixel positions at which every channel value strictly
exceeds 200; it is 0 when all channels are at most 200, and width*height
when all channels are 255. -/
theorem c2_on_count (env : Env) (p o : PyStr) (img : Image)
    (h1 : env.imread p = Except.ok (some img))
    (h2 : ensureDir env o = Except.ok ())
    (h3 : env.imwrite (mask_filename o p) (buildMask img) = Except.ok ()) :
    (process_image env p o).1 = onCountSpec img ∧
    ((∀ i j c, i < img.height → j < img.width → c < 3 → img.px i j c ≤ 200) →
      (process_image env p o).1 = 0) ∧
    ((∀ i j c, i < img.height → j < img.width → c < 3 → img.px i j c = 255) →
      (process_image env p o).1 = img.width * img.height) := by
  have hmain : (process_image env p o).1 = onCountSpec img := by
    rw [process_image_success_eq h1 h2 h3]
    exact count255_buildMask img
  refine ⟨hmain, ?_, ?_⟩
  · intro hlow
    rw [hmain, onCountSpec_eq_zero img hlow]
  · intro hfull
    rw [hmain, onCountSpec_eq_total img hfull]

/-- C2 witness: the amended theorem applied to the spec's 2-by-2 image
(count 2), to the all-dark image (count 0) and to the all-255 image
(count width*height). -/
theorem c2_witness :
    ((process_image envOK ("img.png").toList ("outputs").toList).1 =
      onCountSpec imgSpec2x2) ∧
    ((process_image envDark ("img.png").toList ("outputs").toList).1 = 0) ∧
    ((process_image envWhite ("img.png").toList ("outputs").toList).1 =
      allWhite1.width * allWhite1.height) :=
  ⟨(c2_on_count envOK _ _ imgSpec2x2 rfl rfl rfl).1,
   (c2_on_count envDark _ _ allDark1 rfl rfl rfl).2.1
     (by intro i j c hi hj hc; exact Nat.zero_le 200),
   (c2_on_count envWhite _ _ allWhite1 rfl rfl rfl).2.2
     (by intro i j c hi hj hc; exact rfl)⟩

/-- C4: `process_image` never propagates an exception: an `imread` error
or a `None` image yields `(0, none)`, as does an error in directory
creation or writing; in every case the result is either `(0, none)` or a
successful `(count, some path)` pair. -/
theorem c4_no_exception (env : Env) (p o : PyStr) :
    (∀ e, env.imread p = Except.error e → process_image env p o = (0, none)) ∧
    (env.imread p = Except.ok none → process_image env p o = (0, none)) ∧
    (∀ img e, env.imread p = Except.ok (some img) →
      ensureDir env o = Except.error e → process_image env p o = (0, none)) ∧
    (∀ img e, env.imread p = Except.ok (some img) →
      ensureDir env o = Except.ok () →
      env.imwrite (mask_filename o p) (buildMask img) = Except.error e →
      process_image env p o = (0, none)) ∧
    (process_image env p o = (0, none) ∨
      ∃ img, env.imread p = Except.ok (some img) ∧
        process_image env p o =
          (count255 (buildMask img), some (mask_filename o p))) := by
  refine ⟨fun e h => process_image_read_error h,
    fun h => process_image_read_none h,
    fun img e h1 h2 => process_image_dir_error h1 h2,
    fun img e h1 h2 h3 => process_image_write_error h1 h2 h3, ?_⟩
  cases hq : env.imread p with
  | error e => exact Or.inl (process_image_read_error hq)
  | ok oi =>
    cases oi with
    | none => exact Or.inl (process_image_read_none hq)
    | some img =>
      cases hd : ensureDir env o with
      | error e => exact Or.inl (process_image_dir_error hq hd)
      | ok u =>
        cases u
        cases hw : env.imwrite (mask_filename o p) (buildMask img) with
        | error e => exact Or.inl (process_image_write_error hq hd hw)
        | ok u2 =>
          cases u2
          exact Or.inr ⟨img, rfl, process_image_success_eq hq hd hw⟩

/-- C4 witness: the theorem applied to collaborators that raise in
`imread`, return a `None` image, raise in `makedirs`, and raise in
`imwrite`: each run returns `(0, none)`. -/
theorem c4_witness :
    process_image envReadError ("a.png").toList ("outputs").toList = (0, none) ∧
    process_image envReadNone ("a.png").toList ("outputs").toList = (0, none) ∧
    process_image envDirFail ("a.png").toList ("outputs").toList = (0, none) ∧
    process_image envWriteFail ("a.png").toList ("outputs").toList = (0, none) :=
  ⟨(c4_no_exception envReadError _ _).1 "imread raised" rfl,
   (c4_no_exception envReadNone _ _).2.1 rfl,
   (c4_no_exception envDirFail _ _).2.2.1 allWhite1 "makedirs raised" rfl rfl,
   (c4_no_exception envWriteFail _ _).2.2.2.1 allWhite1 "imwrite raised" rfl rfl rfl⟩

/-- C5 counterexample: for the input `Online-test/photo.old.jpg` the code
neither strips a `/`-separated directory (it only splits on backslashes)
nor keeps the multi-dot stem `photo.old` (it truncates at the first dot):
it writes `outputs/Online-test/photo_mask.png` where the claim demands
`outputs/photo.old_mask.png`, and `process_image` returns that path. -/
theorem c5_counterexample :
    mask_filename ("outputs").toList ("Online-test/photo.old.jpg").toList ≠
      claimedMaskPath ("outputs").toList ("Online-test/photo.old.jpg").toList ∧
    mask_filename ("outputs").toList ("Online-test/photo.old.jpg").toList =
      ("outputs/Online-test/photo_mask.png").toList ∧
    claimedMaskPath ("outputs").toList ("Online-test/photo.old.jpg").toList =
      ("outputs/photo.old_mask.png").toList ∧
    (process_image envOK ("Online-test/photo.old.jpg").toList
      ("outputs").toList).2 =
      some (("outputs/Online-test/photo_mask.png").toList) :=
  ⟨by decide, by decide, by decide, by decide⟩

/-- C5 amended: the path built and returned on success is
`os.path.join(output_dir, stem + "_mask.png")` where the stem is the part
of the input path after the last backslash (forward slashes are not
stripped), truncated at its first dot (not its last). -/
theorem c5_mask_filename (env : Env) (o p : PyStr) :
    mask_filename o p =
      osPathJoin o
        (((p.reverse.takeWhile (fun c => c != '\\')).reverse.takeWhile
          (fun c => c != '.')) ++ ("_mask.png").toList) ∧
    (∀ cnt f, process_image env p o = (cnt, some f) → f = mask_filename o p) := by
  constructor
  · rw [mask_filename, pyLast_pySplit, pyHead_pySplit]
  · intro cnt f h
    cases hq : env.imread p with
    | error e =>
      rw [process_image_read_error hq] at h
      simp at h
    | ok oi =>
      cases oi with
      | none =>
        rw [process_image_read_none hq] at h
        simp at h
      | some img =>
        cases hd : ensureDir env o with
        | error e =>
          rw [process_image_dir_error hq hd] at h
          simp at h
        | ok u =>
          cases u
          cases hw : env.imwrite (mask_filename o p) (buildMask img) with
          | error e =>
            rw [process_image_write_error hq hd hw] at h
            simp at h
          | ok u2 =>
            cases u2
            rw [process_image_success_eq hq hd hw] at h
            have h2 := congrArg Prod.snd h
            simp at h2
            exact h2.symm

/-- C5 witness: the amended formula evaluated on the counterexample path,
and the returned path of a successful run equals `mask_filename`. -/
theorem c5_witness :
    mask_filename ("outputs").toList ("Online-test/photo.old.jpg").toList =
      osPathJoin ("outputs").toList
        (((("Online-test/photo.old.jpg").toList.reverse.takeWhile
          (fun c => c != '\\')).reverse.takeWhile (fun c => c != '.')) ++
          ("_mask.png").toList) ∧
    (("outputs/Online-test/photo_mask.png").toList : PyStr) =
      mask_filename ("outputs").toList ("Online-test/photo.old.jpg").toList :=
  ⟨(c5_mask_filename envOK ("outputs").toList
      ("Online-test/photo.old.jpg").toList).1,
   (c5_mask_filename envOK ("outputs").toList
      ("Online-test/photo.old.jpg").toList).2 2
      (("outputs/Online-test/photo_mask.png").toList) (by decide)⟩

/-- C3: for any list of image locations, whatever order the futures
complete in (any permutation of the per-image results), the collected
total equals the plain sum of the counts `process_image` returns for each
location in isolation, which is also what the submission-order collection
returns. -/
theorem c3_total_order_independent (env : Env) (paths : List PyStr)
    (o : PyStr) (completed : List (Nat × Option PyStr))
    (hperm : completed.Perm (paths.map fun p => process_image env p o)) :
    collect_total completed =
      (paths.map fun p => (process_image env p o).1).sum ∧
    process_images_in_parallel env paths o =
      (paths.map fun p => (process_image env p o).1).sum := by
  constructor
  · rw [collect_total_eq_sum, (hperm.map fun r => r.1).sum_eq, List.map_map]
    rfl
  · rw [process_images_in_parallel, collect_total_eq_sum, List.map_map]
    rfl

/-- C3 witness: a two-image batch collected in reversed completion order
still totals the sum of the isolated per-image counts. -/
theorem c3_witness :
    collect_total
      [process_image envMix ("b.jpg").toList ("outputs").toList,
       process_image envMix ("a.png").toList ("outputs").toList] =
      ([("a.png").toList, ("b.jpg").toList].map fun p =>
        (process_image envMix p ("outputs").toList).1).sum :=
  (c3_total_order_independent envMix
    [("a.png").toList, ("b.jpg").toList] ("outputs").toList
    [process_image envMix ("b.jpg").toList ("outputs").toList,
     process_image envMix ("a.png").toList ("outputs").toList]
    (List.Perm.swap _ _ _)).1

/-- C6: the batch function always returns a total: it is a natural number
(hence non-negative), it is 0 on the empty list of locations, and it is 0
when every per-image invocation fails (returns count 0). -/
theorem c6_batch_always_total (env : Env) (paths : List PyStr) (o : PyStr) :
    0 ≤ process_images_in_parallel env paths o ∧
    (paths = [] → process_images_in_parallel env paths o = 0) ∧
    ((∀ p ∈ paths, (process_image env p o).1 = 0) →
      process_images_in_parallel env paths o = 0) := by
  refine ⟨Nat.zero_le _, ?_, ?_⟩
  · rintro rfl
    rfl
  · intro h
    rw [process_images_in_parallel, collect_total_eq_sum, List.map_map]
    apply List.sum_eq_zero
    intro x hx
    rcases List.mem_map.mp hx with ⟨p, hp, rfl⟩
    exact h p hp

/-- C6 witness: the empty batch returns 0, and a batch whose single image
fails to read returns 0. -/
theorem c6_witness :
    process_images_in_parallel envReadError [] ("outputs").toList = 0 ∧
    process_images_in_parallel envReadError [("a.png").toList]
      ("outputs").toList = 0 :=
  ⟨(c6_batch_always_total envReadError [] ("outputs").toList).2.1 rfl,
   (c6_batch_always_total envReadError [("a.png").toList]
      ("outputs").toList).2.2
     (fun p hp => by
       rw [process_image_read_error
         (rfl : envReadError.imread p = Except.error "imread raised")])⟩

/-- C9: a directory entry passes the input filter iff its last character,
compared case-insensitively, is the letter g; the selected set is exactly
the entries with that property. -/
theorem c9_filter_iff (entries : List PyStr) (f : PyStr) :
    f ∈ selected_files entries ↔
      f ∈ entries ∧ ∃ c, f.getLast? = some c ∧ (c = 'g' ∨ c = 'G') := by
  rw [selected_files, List.mem_filter]
  exact and_congr_right fun _ => selected_iff f

/-- C10: for every successfully loaded image the returned count lies
between 0 and height*width, and the batch total is bounded by the sum of
the pixel counts of the successfully loaded images. -/
theorem c10_count_bounds (env : Env) (p o : PyStr) (img : Image)
    (h : env.imread p = Except.ok (some img)) :
    (0 ≤ (process_image env p o).1 ∧
      (process_image env p o).1 ≤ img.height * img.width) ∧
    (∀ paths : List PyStr,
      process_images_in_parallel env paths o ≤
        (paths.map fun q =>
          match env.imread q with
          | Except.ok (some im) => im.height * im.width
          | _ => 0).sum) := by
  constructor
  · refine ⟨Nat.zero_le _, ?_⟩
    have hle := process_image_fst_le env p o
    rw [h] at hle
    exact hle
  · intro paths
    rw [process_images_in_parallel, collect_total_eq_sum, List.map_map]
    apply List.sum_le_sum
    intro q _
    exact process_image_fst_le env q o

/-- C10 witness: with the always-succeeding environment the single-image
count is at most 2*2 and a one-image batch obeys the bound. -/
theorem c10_witness :
    (process_image envOK ("a.png").toList ("outputs").toList).1 ≤
      imgSpec2x2.height * imgSpec2x2.width ∧
    process_images_in_parallel envOK [("a.png").toList] ("outputs").toList ≤
      ([("a.png").toList].map fun q =>
        match envOK.imread q with
        | Except.ok (some im) => im.height * im.width
        | _ => 0).sum :=
  ⟨(c10_count_bounds envOK ("a.png").toList ("outputs").toList
      imgSpec2x2 rfl).1.2,
   (c10_count_bounds envOK ("a.png").toList ("outputs").toList
      imgSpec2x2 rfl).2 [("a.png").toList]⟩

end BinaryMask
